import Mathlib

/-!
# Verification of the xray-lite tracing core

A shallow embedding of the `xray-lite` crate's trace-header codec
(`src/header.rs`), segment model, namespace decoration (`src/namespace.rs`),
daemon client framing (`src/client.rs`) and subsegment session lifecycle
(`src/session.rs`), together with proofs of the specified properties.

Strings are modelled as `List Char`; Rust's `&str` operations (`split`,
`strip_prefix`, `starts_with`, `split_once`) are given their exact
counterparts below.  `HashMap<String, String>` is modelled as an
insertion-ordered association list with unique keys; Rust's `HashMap`
equality is order-insensitive, so equality of the deterministic model is a
sound strengthening.
-/

/-- Character-list model of Rust `String` / `&str`. -/
abbrev Str := List Char

/-- Conversion from a Lean string literal to the model. -/
def str (s : String) : Str := s.toList

/-- Modelled from the spec: `trace_id.rs` is not under `src/`.  §3 of the
spec: a TraceId is "either a rendered string token or an unset marker";
the unset marker is the `Default`. -/
inductive TraceId where
  | Rendered : Str → TraceId
  | Unset : TraceId
deriving DecidableEq

instance : Inhabited TraceId := ⟨TraceId.Unset⟩

/-- Modelled from the spec: the `Display` of a rendered TraceId is its
token (serialization emits `Root=<trace_id>`); the unset marker has no
specified rendering and is modelled as empty. -/
def TraceId.render : TraceId → Str
  | .Rendered s => s
  | .Unset => []

/-- Modelled from the spec: `segment_id.rs` is not under `src/`; same
representation discipline as `TraceId` (§3). -/
inductive SegmentId where
  | Rendered : Str → SegmentId
  | Unset : SegmentId
deriving DecidableEq

instance : Inhabited SegmentId := ⟨SegmentId.Unset⟩

/-- Modelled from the spec: rendering of a SegmentId, as for `TraceId`. -/
def SegmentId.render : SegmentId → Str
  | .Rendered s => s
  | .Unset => []

/-- `header.rs` lines 11-26: the sampling decision. -/
inductive SamplingDecision where
  | Sampled
  | NotSampled
  | Requested
  | Unknown
deriving DecidableEq

instance : Inhabited SamplingDecision := ⟨SamplingDecision.Unknown⟩

/-- `header.rs` lines 28-37: `From<&str> for SamplingDecision`, matching
the full segment text. -/
def SamplingDecision.fromLine (line : Str) : SamplingDecision :=
  if line = str "Sampled=1" then .Sampled
  else if line = str "Sampled=0" then .NotSampled
  else if line = str "Sampled=?" then .Requested
  else .Unknown

/-- `header.rs` lines 39-53: `Display for SamplingDecision`. -/
def SamplingDecision.render : SamplingDecision → Str
  | .Sampled => str "Sampled=1"
  | .NotSampled => str "Sampled=0"
  | .Requested => str "Sampled=?"
  | .Unknown => []

/-- `header.rs` lines 56-62: parsed `X-Amzn-Trace-Id` header.
`additional_data` models the `HashMap` as an insertion-ordered
association list with unique keys. -/
structure Header where
  trace_id : TraceId
  parent_id : Option SegmentId
  sampling_decision : SamplingDecision
  additional_data : List (Str × Str)
deriving DecidableEq

/-- `Header::default()` (derived `Default`). -/
instance : Inhabited Header := ⟨⟨.Unset, none, .Unknown, []⟩⟩

/-- `header.rs` lines 79-86: `Header::with_parent_id`. -/
def Header.with_parent_id (h : Header) (parent_id : SegmentId) : Header :=
  { trace_id := h.trace_id
    parent_id := some parent_id
    sampling_decision := h.sampling_decision
    additional_data := h.additional_data }

/-- Rust `str::strip_prefix`. -/
def stripPfx (p l : Str) : Option Str :=
  if p.isPrefixOf l then some (l.drop p.length) else none

/-- Rust `str::split_once`: split at the first occurrence of `c`. -/
def splitOnce (c : Char) : Str → Option (Str × Str)
  | [] => none
  | a :: rest =>
    if a = c then some ([], rest)
    else (splitOnce c rest).map (fun p => (a :: p.1, p.2))

/-- `HashMap::insert` on the association-list model: replace the value of
an existing key in place, otherwise append. -/
def adInsert : List (Str × Str) → Str → Str → List (Str × Str)
  | [], k, v => [(k, v)]
  | (k0, v0) :: rest, k, v =>
    if k0 = k then (k0, v) :: rest else (k0, v0) :: adInsert rest k v

/-- The parse error message of `header.rs` line 119; `s` is the whole
input text (the Rust code interpolates `s`, not the offending line). -/
def errMsg (s : Str) : Str :=
  str "invalid key=value: no `=` found in `" ++ s ++ str "`"

/-- `header.rs` lines 107-124: the body of `Header::from_str`'s
`try_fold`, as a short-circuiting recursion over the `;`-split segments.
`s` is the whole input (used only in the error message). -/
def runParse (s : Str) : Header → List Str → Except Str Header
  | h, [] => .ok h
  | h, line :: rest =>
    match stripPfx (str "Root=") line with
    | some trace_id => runParse s { h with trace_id := .Rendered trace_id } rest
    | none =>
      match stripPfx (str "Parent=") line with
      | some parent_id =>
        runParse s { h with parent_id := some (.Rendered parent_id) } rest
      | none =>
        if (str "Sampled=").isPrefixOf line then
          runParse s { h with sampling_decision := .fromLine line } rest
        else if (str "Self=").isPrefixOf line then
          runParse s h rest
        else
          match splitOnce '=' line with
          | some (k, v) =>
            runParse s { h with additional_data := adInsert h.additional_data k v } rest
          | none => .error (errMsg s)

/-- `header.rs` lines 105-125: `Header::from_str`. -/
def Header.fromStr (s : Str) : Except Str Header :=
  runParse s default (s.splitOn ';')

/-- `header.rs` lines 127-141: `Display for Header`, as the concatenation
of the successive `write!` outputs. -/
def Header.fmt (h : Header) : Str :=
  str "Root=" ++ h.trace_id.render
    ++ (match h.parent_id with
        | some parent => str ";Parent=" ++ parent.render
        | none => [])
    ++ (if h.sampling_decision = .Unknown then []
        else ';' :: h.sampling_decision.render)
    ++ (h.additional_data.map (fun kv => ';' :: (kv.1 ++ '=' :: kv.2))).flatten

/-- Modelled from the spec: `epoch.rs` is not under `src/`.  §3: times are
float seconds of wall clock; modelled as rationals. -/
abbrev Seconds := ℚ

/-- Modelled from the spec: `segment.rs` is not under `src/`.  §3: the
cloud-operation block `{operation, request_id}` (fields as consumed by
`namespace.rs`). -/
structure AwsOperation where
  operation : Option Str
  request_id : Option Str
deriving DecidableEq

instance : Inhabited AwsOperation := ⟨⟨none, none⟩⟩

/-- Modelled from the spec: `segment.rs` is not under `src/`.  §3: the
http request block `{method, url}`. -/
structure Request where
  method : Option Str
  url : Option Str
deriving DecidableEq

instance : Inhabited Request := ⟨⟨none, none⟩⟩

/-- Modelled from the spec: `segment.rs` is not under `src/`.  §3: the
http response block `{status}`. -/
structure Response where
  status : Option Nat
deriving DecidableEq

instance : Inhabited Response := ⟨⟨none⟩⟩

/-- Modelled from the spec: `segment.rs` is not under `src/`.  §3: the
http block `{request, response}`. -/
structure Http where
  request : Option Request
  response : Option Response
deriving DecidableEq

instance : Inhabited Http := ⟨⟨none, none⟩⟩

/-- Modelled from the spec: `segment.rs` is not under `src/`.  §3: the
Segment/Subsegment record, with the fields consumed by `namespace.rs` and
`session.rs`.  `namespace'` stands for the Rust field `namespace` (a Lean
keyword). -/
structure Subsegment where
  id : SegmentId
  name : Str
  start_time : Seconds
  end_time : Option Seconds
  in_progress : Bool
  trace_id : TraceId
  parent_id : Option SegmentId
  namespace' : Option Str
  aws : Option AwsOperation
  http : Option Http
deriving DecidableEq

/-- Modelled from the spec: §4.2 `begin(trace_id, parent_id, name)` sets
`start_time` to the current time, `in_progress = true`, `end_time = None`
and a freshly generated id; the id source and the clock are external
collaborators, passed as the `id` and `now` arguments. -/
def Subsegment.begin (trace_id : TraceId) (parent_id : Option SegmentId)
    (name : Str) (id : SegmentId) (now : Seconds) : Subsegment :=
  { id := id
    name := name
    start_time := now
    end_time := none
    in_progress := true
    trace_id := trace_id
    parent_id := parent_id
    namespace' := none
    aws := none
    http := none }

/-- Modelled from the spec: §4.2 `end(segment)` sets `end_time` to the
current time and clears `in_progress`.  (`end` is a Lean keyword.) -/
def Subsegment.end' (sub : Subsegment) (now : Seconds) : Subsegment :=
  { sub with end_time := some now, in_progress := false }

/-- `namespace.rs` lines 17-23: namespace for an AWS service. -/
structure AwsNamespace where
  service : Str
  operation : Str
  request_id : Option Str
  response_status : Option Nat
deriving DecidableEq

/-- `namespace.rs` lines 27-34: `AwsNamespace::new`. -/
def AwsNamespace.new (service operation : Str) : AwsNamespace :=
  ⟨service, operation, none, none⟩

/-- `namespace.rs` lines 37-40: the `request_id` mutator. -/
def AwsNamespace.set_request_id (n : AwsNamespace) (request_id : Str) : AwsNamespace :=
  { n with request_id := some request_id }

/-- `namespace.rs` lines 43-46: the `response_status` mutator. -/
def AwsNamespace.set_response_status (n : AwsNamespace) (status : Nat) : AwsNamespace :=
  { n with response_status := some status }

/-- `namespace.rs` lines 54-94: `AwsNamespace::update_subsegment`. -/
def AwsNamespace.update_subsegment (n : AwsNamespace) (sub : Subsegment) : Subsegment :=
  let sub :=
    if sub.namespace'.isNone then { sub with namespace' := some (str "aws") } else sub
  let sub :=
    match sub.aws with
    | some aws =>
      let aws := if aws.operation.isNone then { aws with operation := some n.operation } else aws
      let aws := if aws.request_id.isNone then { aws with request_id := n.request_id } else aws
      { sub with aws := some aws }
    | none => { sub with aws := some ⟨some n.operation, n.request_id⟩ }
  match n.response_status with
  | some response_status =>
    match sub.http with
    | some http =>
      match http.response with
      | some response =>
        if response.status.isNone then
          { sub with http := some { http with response := some { response with status := some response_status } } }
        else sub
      | none =>
        { sub with http := some { http with response := some ⟨some response_status⟩ } }
    | none => { sub with http := some ⟨none, some ⟨some response_status⟩⟩ }
  | none => sub

/-- `namespace.rs` lines 99-104: namespace for a remote service. -/
structure RemoteNamespace where
  name : Str
  method : Str
  url : Str
  response_status : Option Nat
deriving DecidableEq

/-- `namespace.rs` lines 108-115: `RemoteNamespace::new`. -/
def RemoteNamespace.new (name method url : Str) : RemoteNamespace :=
  ⟨name, method, url, none⟩

/-- `namespace.rs` lines 118-121: the `response_status` mutator. -/
def RemoteNamespace.set_response_status (n : RemoteNamespace) (status : Nat) : RemoteNamespace :=
  { n with response_status := some status }

/-- `namespace.rs` lines 129-171: `RemoteNamespace::update_subsegment`.
The result is `none` exactly when the `expect("http must have been set")`
on line 159 would panic. -/
def RemoteNamespace.update_subsegment (n : RemoteNamespace) (sub : Subsegment) :
    Option Subsegment :=
  let sub :=
    if sub.namespace'.isNone then { sub with namespace' := some (str "remote") } else sub
  let sub :=
    match sub.http with
    | some http =>
      let http :=
        match http.request with
        | some request =>
          let request := if request.method.isNone then { request with method := some n.method } else request
          let request := if request.url.isNone then { request with url := some n.url } else request
          { http with request := some request }
        | none => { http with request := some ⟨some n.method, some n.url⟩ }
      { sub with http := some http }
    | none => { sub with http := some ⟨some ⟨some n.method, some n.url⟩, none⟩ }
  match n.response_status with
  | some response_status =>
    match sub.http with
    | some http =>
      match http.response with
      | some response =>
        if response.status.isNone then
          some { sub with http := some { http with response := some { response with status := some response_status } } }
        else some sub
      | none =>
        some { sub with http := some { http with response := some ⟨some response_status⟩ } }
    | none => none
  | none => some sub

/-- `namespace.rs` lines 176-178: namespace for a custom subsegment. -/
structure CustomNamespace where
  name : Str
deriving DecidableEq

/-- `namespace.rs` lines 182-184: `CustomNamespace::new`. -/
def CustomNamespace.new (name : Str) : CustomNamespace := ⟨name⟩

/-- The closed set of `Namespace` implementations of `namespace.rs`,
used for dispatch in the session model. -/
inductive Namespace where
  | aws : AwsNamespace → Namespace
  | remote : RemoteNamespace → Namespace
  | custom : CustomNamespace → Namespace
deriving DecidableEq

/-- The `Namespace::name` dispatch: `AwsNamespace` returns its service,
`RemoteNamespace` its name (both ignore the prefix), `CustomNamespace`
prepends the prefix (`namespace.rs` lines 50-52, 125-127, 188-190). -/
def Namespace.name (n : Namespace) (pfx : Str) : Str :=
  match n with
  | .aws a => a.service
  | .remote r => r.name
  | .custom c => pfx ++ c.name

/-- The `Namespace::update_subsegment` dispatch; `none` models a panic
(possible only through `RemoteNamespace`'s `expect`). -/
def Namespace.update_subsegment (n : Namespace) (sub : Subsegment) : Option Subsegment :=
  match n with
  | .aws a => some (a.update_subsegment sub)
  | .remote r => r.update_subsegment sub
  | .custom _ => some sub

/-- A transport client modelled by its send outcome: `true` models
`Ok(())`, `false` a transport/serialization error (`client.rs` trait
`Client`). -/
abbrev ClientFn := Subsegment → Bool

/-- `client.rs` line 26: `DaemonClient::HEADER`, as bytes. -/
def DaemonClient.HEADER : List Nat :=
  (str "\x7b\"format\": \"json\", \"version\": 1\x7d").map Char.toNat

/-- `client.rs` line 27: `DaemonClient::DELIMITER` (a single newline). -/
def DaemonClient.DELIMITER : List Nat := [10]

/-- `client.rs` lines 53-60: `DaemonClient::packet`, given the
serde-serialized JSON bytes of the payload (serialization is an external
collaborator). -/
def DaemonClient.packet (jsonBytes : List Nat) : List Nat :=
  DaemonClient.HEADER ++ DaemonClient.DELIMITER ++ jsonBytes

/-- `client.rs` lines 75-80: `InfallibleClient`, over an abstract
operational client. -/
inductive InfallibleClient where
  | op : ClientFn → InfallibleClient
  | noop : InfallibleClient

/-- `client.rs` lines 92-105: `impl Client for InfallibleClient`: `Op`
delegates, `Noop` always returns `Ok(())` without transmitting. -/
def InfallibleClient.send : InfallibleClient → ClientFn
  | .op c => c
  | .noop => fun _ => true

/-- `session.rs` lines 10-28: the subsegment session state machine. -/
inductive SubsegmentSession where
  | entered (client : ClientFn) (header : Header) (subsegment : Subsegment)
      (namespace' : Namespace)
  | failed

/-- `session.rs` lines 35-51: `SubsegmentSession::new`.  Returns the new
session together with the list of records whose send was attempted;
`none` models a namespace-decoration panic.  The fresh segment id and the
clock are external collaborators, passed as `id` and `now`. -/
def SubsegmentSession.new (client : ClientFn) (header : Header) (ns : Namespace)
    (pfx : Str) (id : SegmentId) (now : Seconds) :
    Option (SubsegmentSession × List Subsegment) :=
  let sub0 := Subsegment.begin header.trace_id header.parent_id (ns.name pfx) id now
  match ns.update_subsegment sub0 with
  | none => none
  | some sub =>
    if client sub then
      some (.entered client (header.with_parent_id sub.id) sub ns, [sub])
    else
      some (.failed, [sub])

/-- `session.rs` lines 58-63: `x_amzn_trace_id`. -/
def SubsegmentSession.x_amzn_trace_id : SubsegmentSession → Option Str
  | .entered _ header _ _ => some header.fmt
  | .failed => none

/-- `session.rs` lines 66-71: `namespace_mut` (exposure of the live
namespace; `None` in the `Failed` state). -/
def SubsegmentSession.namespace_mut : SubsegmentSession → Option Namespace
  | .entered _ _ _ ns => some ns
  | .failed => none

/-- `session.rs` lines 79-95: `Drop::drop`.  Returns the list of records
whose send was attempted at release (a send failure is swallowed, so the
record counts as attempted either way); `none` models a decoration
panic. -/
def SubsegmentSession.drop (sess : SubsegmentSession) (now : Seconds) :
    Option (List Subsegment) :=
  match sess with
  | .entered _ _ sub ns =>
    let sub := sub.end' now
    match ns.update_subsegment sub with
    | none => none
    | some sub => some [sub]
  | .failed => some []

/-- A freshly begun subsegment with trivial identifiers, used to
instantiate the decoration and lifecycle theorems. -/
def freshSub : Subsegment := Subsegment.begin .Unset none [] .Unset 0

/-- A subsegment whose cloud-operation block already carries a different
operation, refuting the universally quantified form of the double
decoration claim. -/
def preloadedSub : Subsegment :=
  { freshSub with aws := some ⟨some (str "PutObject"), none⟩ }

/-- A key of `additional_data` as produced by a successful parse: it
contains no `=` and no `;`, and whole-segment prefix dispatch never
classifies `key=value` under one of the reserved branches. -/
def GoodKey (k : Str) : Prop :=
  '=' ∉ k ∧ ';' ∉ k ∧ k ≠ str "Root" ∧ k ≠ str "Parent" ∧
    k ≠ str "Sampled" ∧ k ≠ str "Self"

/-- Invariant of the `additional_data` association list after a parse:
keys are unique and each pair is re-parseable. -/
def ADOk (ad : List (Str × Str)) : Prop :=
  (ad.map Prod.fst).Nodup ∧ ∀ kv ∈ ad, GoodKey kv.1 ∧ ';' ∉ kv.2

/-- A rendered trace id without separators. -/
def TraceRendered (h : Header) : Prop :=
  ∃ r, h.trace_id = .Rendered r ∧ ';' ∉ r

/-- Invariant of a parsed header: any rendered trace id is separator
free, the parent id (when present) is rendered and separator free, and
the additional data is well formed. -/
def HeaderOk (h : Header) : Prop :=
  (∀ r, h.trace_id = .Rendered r → ';' ∉ r) ∧
  (∀ p, h.parent_id = some p → ∃ ps, p = .Rendered ps ∧ ';' ∉ ps) ∧
  ADOk h.additional_data

/-- The `;`-separated segments emitted by `Header.fmt`, in order. -/
def fmtSegs (h : Header) : List Str :=
  (str "Root=" ++ h.trace_id.render)
    :: ((match h.parent_id with
        | some parent => [str "Parent=" ++ parent.render]
        | none => [])
      ++ (if h.sampling_decision = .Unknown then []
          else [h.sampling_decision.render])
      ++ h.additional_data.map (fun kv => kv.1 ++ '=' :: kv.2))

/-- Join a nonempty list of segments with `;` separators. -/
def joinSemi : List Str → Str
  | [] => []
  | a :: rest => a ++ (rest.map (';' :: ·)).flatten

/-! ## Theorems -/

/-- C8: for the JSON payload `{"foo":"bar"}`, the transport packet bytes
equal the preamble `{"format": "json", "version": 1}`, a single newline
byte, and `{"foo":"bar"}`, exactly, byte for byte. -/
theorem packet_foo_bar_bytes :
    DaemonClient.packet ((str "\x7b\"foo\":\"bar\"\x7d").map Char.toNat) =
      [123, 34, 102, 111, 114, 109, 97, 116, 34, 58, 32, 34, 106, 115, 111,
       110, 34, 44, 32, 34, 118, 101, 114, 115, 105, 111, 110, 34, 58, 32,
       49, 125, 10, 123, 34, 102, 111, 111, 34, 58, 34, 98, 97, 114, 34,
       125] := by
  decide

/-- C4 counterexample: the claim quantifies over every `Subsegment`, but a
subsegment whose cloud-operation block already holds
`operation="PutObject"` keeps it after the double decoration (set-if-absent
means the scenario's fields land only when initially absent). -/
theorem aws_double_decoration_not_universal :
    ¬ (((AwsNamespace.new (str "S3") (str "GetObject")).set_request_id
          (str "abc")).update_subsegment
        ((AwsNamespace.new (str "S3") (str "GetObject")).update_subsegment
          preloadedSub)).aws
      = some ⟨some (str "GetObject"), some (str "abc")⟩ := by
  decide

/-- C4 (amended): for every subsegment whose namespace field and
cloud-operation block are initially absent (e.g. freshly begun),
decorating twice with `AwsNamespace("S3", "GetObject")`, with
`request_id("abc")` set between the calls, yields
`operation="GetObject"`, `request_id="abc"` and top-level namespace
exactly `"aws"`; and in general no `AwsNamespace` decoration call
overwrites a namespace, operation, request-id or response-status value
already present. -/
theorem aws_double_decoration_set_if_absent :
    (∀ sub : Subsegment, sub.namespace' = none → sub.aws = none →
      (((AwsNamespace.new (str "S3") (str "GetObject")).set_request_id
            (str "abc")).update_subsegment
          ((AwsNamespace.new (str "S3") (str "GetObject")).update_subsegment
            sub)).namespace' = some (str "aws") ∧
      (((AwsNamespace.new (str "S3") (str "GetObject")).set_request_id
            (str "abc")).update_subsegment
          ((AwsNamespace.new (str "S3") (str "GetObject")).update_subsegment
            sub)).aws = some ⟨some (str "GetObject"), some (str "abc")⟩) ∧
    (∀ (n : AwsNamespace) (sub : Subsegment),
      (∀ x, sub.namespace' = some x →
        (n.update_subsegment sub).namespace' = some x) ∧
      (∀ blk o, sub.aws = some blk → blk.operation = some o →
        ∃ blk', (n.update_subsegment sub).aws = some blk' ∧
          blk'.operation = some o) ∧
      (∀ blk r, sub.aws = some blk → blk.request_id = some r →
        ∃ blk', (n.update_subsegment sub).aws = some blk' ∧
          blk'.request_id = some r) ∧
      (∀ hb rb st, sub.http = some hb → hb.response = some rb →
        rb.status = some st →
        ∃ hb' rb', (n.update_subsegment sub).http = some hb' ∧
          hb'.response = some rb' ∧ rb'.status = some st)) := by
  constructor
  · intro sub h1 h2
    obtain ⟨i, nm, t0, e0, ip, ti, pi, ns', aw, ht⟩ := sub
    simp only at h1 h2
    subst h1; subst h2
    rcases ht with _ | ⟨req, _ | ⟨_ | stv⟩⟩ <;>
      simp [AwsNamespace.update_subsegment, AwsNamespace.new,
        AwsNamespace.set_request_id]
  · intro n sub
    obtain ⟨svc, oper, rid, rs⟩ := n
    obtain ⟨i, nm, t0, e0, ip, ti, pi, ns', aw, ht⟩ := sub
    refine ⟨?_, ?_, ?_, ?_⟩
    · intro x hx
      simp only at hx
      subst hx
      rcases rs with _ | rst <;>
        rcases aw with _ | ⟨_ | opv, _ | ridv⟩ <;>
        rcases ht with _ | ⟨req, _ | ⟨_ | stv⟩⟩ <;>
        simp [AwsNamespace.update_subsegment]
    · intro blk o hblk ho
      simp only at hblk
      subst hblk
      obtain ⟨bo, br⟩ := blk
      simp only at ho
      subst ho
      rcases rs with _ | rst <;>
        rcases br with _ | brv <;>
        rcases ht with _ | ⟨req, _ | ⟨_ | stv⟩⟩ <;>
        rcases ns' with _ | nsv <;>
        simp [AwsNamespace.update_subsegment]
    · intro blk r hblk hr
      simp only at hblk
      subst hblk
      obtain ⟨bo, br⟩ := blk
      simp only at hr
      subst hr
      rcases rs with _ | rst <;>
        rcases bo with _ | bov <;>
        rcases ht with _ | ⟨req, _ | ⟨_ | stv⟩⟩ <;>
        rcases ns' with _ | nsv <;>
        simp [AwsNamespace.update_subsegment]
    · intro hb rb st hhb hrb hst
      simp only at hhb
      subst hhb
      obtain ⟨req, resp⟩ := hb
      simp only at hrb
      subst hrb
      obtain ⟨stt⟩ := rb
      simp only at hst
      subst hst
      rcases rs with _ | rst <;>
        rcases aw with _ | ⟨_ | opv, _ | ridv⟩ <;>
        rcases ns' with _ | nsv <;>
        simp [AwsNamespace.update_subsegment]

/-- C4 witness: the amended double-decoration property evaluated on a
freshly begun subsegment. -/
theorem aws_double_decoration_set_if_absent_witness :
    freshSub.namespace' = none ∧ freshSub.aws = none ∧
    (((AwsNamespace.new (str "S3") (str "GetObject")).set_request_id
          (str "abc")).update_subsegment
        ((AwsNamespace.new (str "S3") (str "GetObject")).update_subsegment
          freshSub)).aws = some ⟨some (str "GetObject"), some (str "abc")⟩ :=
  ⟨rfl, rfl, (aws_double_decoration_set_if_absent.1 freshSub rfl rfl).2⟩

/-- C9: `RemoteNamespace::update_subsegment` never reaches the
`expect("http must have been set")` panic (the result is always `some`),
and it always leaves the http block present with a request block whose
method and url are populated. -/
theorem remote_update_populates_request :
    ∀ (n : RemoteNamespace) (sub : Subsegment),
      ∃ sub' http req, n.update_subsegment sub = some sub' ∧
        sub'.http = some http ∧ http.request = some req ∧
        req.method.isSome ∧ req.url.isSome := by
  intro n sub
  obtain ⟨nm, mth, u, rs⟩ := n
  obtain ⟨i, snm, t0, e0, ip, ti, pi, ns', aw, ht⟩ := sub
  rcases rs with _ | rst <;>
    rcases ht with _ | ⟨_ | ⟨_ | mv, _ | uv⟩, _ | ⟨_ | stv⟩⟩ <;>
    rcases ns' with _ | nsv <;>
    simp [RemoteNamespace.update_subsegment]

/-- Helper: namespace decoration never panics and never changes the
lifecycle fields (id, name, times, progress flag, trace and parent ids)
of the subsegment. -/
theorem namespace_update_preserves_lifecycle (ns : Namespace) (sub : Subsegment) :
    ∃ sub', ns.update_subsegment sub = some sub' ∧
      sub'.id = sub.id ∧ sub'.name = sub.name ∧
      sub'.start_time = sub.start_time ∧ sub'.end_time = sub.end_time ∧
      sub'.in_progress = sub.in_progress ∧ sub'.trace_id = sub.trace_id ∧
      sub'.parent_id = sub.parent_id := by
  obtain ⟨i, snm, t0, e0, ip, ti, pi, ns', aw, ht⟩ := sub
  cases ns with
  | aws a =>
    obtain ⟨svc, oper, rid, rs⟩ := a
    rcases rs with _ | rst <;>
      rcases aw with _ | ⟨_ | opv, _ | ridv⟩ <;>
      rcases ht with _ | ⟨req, _ | ⟨_ | stv⟩⟩ <;>
      rcases ns' with _ | nsv <;>
      simp [Namespace.update_subsegment, AwsNamespace.update_subsegment]
  | remote r =>
    obtain ⟨nm, mth, u, rs⟩ := r
    rcases rs with _ | rst <;>
      rcases ht with _ | ⟨_ | ⟨_ | mv, _ | uv⟩, _ | ⟨_ | stv⟩⟩ <;>
      rcases ns' with _ | nsv <;>
      simp [Namespace.update_subsegment, RemoteNamespace.update_subsegment]
  | custom c =>
    simp [Namespace.update_subsegment]

/-- C2: with a transport client whose send succeeds, a session attempts
exactly one send at creation (record in progress, no end time) and
exactly one at release (record complete, end time the release instant,
which is at or after the start time); both records carry the same segment
id and trace id. -/
theorem session_lifetime_two_records
    (client : ClientFn) (header : Header) (ns : Namespace) (pfx : Str)
    (id : SegmentId) (t0 t1 : Seconds)
    (hok : ∀ r, client r = true) (ht : t0 ≤ t1) :
    ∃ sess r1 r2,
      SubsegmentSession.new client header ns pfx id t0 = some (sess, [r1]) ∧
      sess.drop t1 = some [r2] ∧
      r1.in_progress = true ∧ r1.end_time = none ∧
      r2.in_progress = false ∧ r2.end_time = some t1 ∧ r2.start_time ≤ t1 ∧
      r1.id = r2.id ∧ r1.trace_id = r2.trace_id := by
  obtain ⟨sub, hupd, hid, hnm, hst, het, hip, hti, hpi⟩ :=
    namespace_update_preserves_lifecycle ns
      (Subsegment.begin header.trace_id header.parent_id (ns.name pfx) id t0)
  obtain ⟨sub2, hupd2, hid2, hnm2, hst2, het2, hip2, hti2, hpi2⟩ :=
    namespace_update_preserves_lifecycle ns (sub.end' t1)
  refine ⟨.entered client (header.with_parent_id sub.id) sub ns, sub, sub2,
    ?_, ?_, ?_, ?_, ?_, ?_, ?_, ?_, ?_⟩
  · simp [SubsegmentSession.new, hupd, hok sub]
  · simp [SubsegmentSession.drop, hupd2]
  · rw [hip]; rfl
  · rw [het]; rfl
  · rw [hip2]; rfl
  · rw [het2]; rfl
  · rw [hst2]
    show sub.start_time ≤ t1
    rw [hst]
    exact ht
  · rw [hid2]; rfl
  · rw [hti2]; rfl

/-- C2 witness: the two-record lifetime at a concrete always-succeeding
client, custom namespace and instants 0 and 1. -/
theorem session_lifetime_two_records_witness :
    (∀ r : Subsegment, (fun _ : Subsegment => true) r = true) ∧
    (0 : Seconds) ≤ 1 ∧
    ∃ sess r1 r2,
      SubsegmentSession.new (fun _ => true) default
        (.custom (CustomNamespace.new [])) [] .Unset 0 = some (sess, [r1]) ∧
      sess.drop 1 = some [r2] ∧
      r1.in_progress = true ∧ r1.end_time = none ∧
      r2.in_progress = false ∧ r2.end_time = some 1 ∧ r2.start_time ≤ 1 ∧
      r1.id = r2.id ∧ r1.trace_id = r2.trace_id :=
  ⟨fun _ => rfl, by norm_num,
    session_lifetime_two_records (fun _ => true) default
      (.custom (CustomNamespace.new [])) [] .Unset 0 1 (fun _ => rfl)
      (by norm_num)⟩

/-- C3: with a transport client whose send always fails, the session
lands in the `Failed` state (after the single failed creation attempt);
`x_amzn_trace_id` and `namespace_mut` return nothing there, and release
attempts no second send. -/
theorem session_failed_state_inert
    (client : ClientFn) (header : Header) (ns : Namespace) (pfx : Str)
    (id : SegmentId) (t0 t1 : Seconds)
    (hfail : ∀ r, client r = false) :
    (∃ r1, SubsegmentSession.new client header ns pfx id t0 =
        some (.failed, [r1])) ∧
    SubsegmentSession.failed.x_amzn_trace_id = none ∧
    SubsegmentSession.failed.namespace_mut = none ∧
    SubsegmentSession.failed.drop t1 = some [] := by
  obtain ⟨sub, hupd, -, -, -, -, -, -, -⟩ :=
    namespace_update_preserves_lifecycle ns
      (Subsegment.begin header.trace_id header.parent_id (ns.name pfx) id t0)
  exact ⟨⟨sub, by simp [SubsegmentSession.new, hupd, hfail sub]⟩, rfl, rfl, rfl⟩

/-- C3 witness: the failed-session behaviour at a concrete
always-failing client. -/
theorem session_failed_state_inert_witness :
    (∀ r : Subsegment, (fun _ : Subsegment => false) r = false) ∧
    ((∃ r1, SubsegmentSession.new (fun _ => false) default
        (.custom (CustomNamespace.new [])) [] .Unset 0 =
        some (.failed, [r1])) ∧
    SubsegmentSession.failed.x_amzn_trace_id = none ∧
    SubsegmentSession.failed.namespace_mut = none ∧
    SubsegmentSession.failed.drop 1 = some []) :=
  ⟨fun _ => rfl,
    session_failed_state_inert (fun _ => false) default
      (.custom (CustomNamespace.new [])) [] .Unset 0 1 (fun _ => rfl)⟩

/-- C10: `InfallibleClient::send` in the `Noop` state returns `Ok(())`
for every record (no transmission happens), so a session created through
a `Noop` client always enters the `Entered` state and exposes the derived
header (the input header with this segment's id as parent). -/
theorem infallible_noop_session_entered
    (header : Header) (ns : Namespace) (pfx : Str) (id : SegmentId)
    (t0 : Seconds) :
    (∀ r, InfallibleClient.noop.send r = true) ∧
    ∃ sub, sub.id = id ∧
      SubsegmentSession.new InfallibleClient.noop.send header ns pfx id t0 =
        some (.entered InfallibleClient.noop.send
          (header.with_parent_id sub.id) sub ns, [sub]) ∧
      (SubsegmentSession.entered InfallibleClient.noop.send
          (header.with_parent_id sub.id) sub ns).x_amzn_trace_id =
        some (header.with_parent_id sub.id).fmt := by
  obtain ⟨sub, hupd, hid, -, -, -, -, -, -⟩ :=
    namespace_update_preserves_lifecycle ns
      (Subsegment.begin header.trace_id header.parent_id (ns.name pfx) id t0)
  exact ⟨fun _ => rfl,
    sub, by rw [hid]; rfl,
    by simp [SubsegmentSession.new, hupd, InfallibleClient.send], rfl⟩

/-! ## Lemmas about `;`-splitting -/

/-- Unfolding of `List.splitOn ';'` on a cons cell. -/
theorem splitOn_semi_cons (c : Char) (l : Str) :
    (c :: l).splitOn ';' =
      if c = ';' then [] :: l.splitOn ';'
      else (l.splitOn ';').modifyHead (c :: ·) := by
  simp [List.splitOn, List.splitOnP_cons]

/-- `List.splitOn ';'` never returns the empty list. -/
theorem splitOn_semi_ne_nil (l : Str) : l.splitOn ';' ≠ [] :=
  List.splitOnP_ne_nil _ l

/-- A separator-free text splits into itself. -/
theorem splitOn_semi_single (a : Str) (h : ';' ∉ a) : a.splitOn ';' = [a] := by
  induction a with
  | nil => simp
  | cons c t ih =>
    have hc : c ≠ ';' := fun hh => h (hh ▸ List.mem_cons_self c t)
    have ht : ';' ∉ t := fun hh => h (List.mem_cons_of_mem c hh)
    rw [splitOn_semi_cons, if_neg hc, ih ht]
    rfl

/-- Splitting distributes over a separator following a separator-free
chunk. -/
theorem splitOn_semi_append (a b : Str) (h : ';' ∉ a) :
    (a ++ ';' :: b).splitOn ';' = a :: b.splitOn ';' := by
  induction a with
  | nil => simp [splitOn_semi_cons]
  | cons c t ih =>
    have hc : c ≠ ';' := fun hh => h (hh ▸ List.mem_cons_self c t)
    have ht : ';' ∉ t := fun hh => h (List.mem_cons_of_mem c hh)
    rw [List.cons_append, splitOn_semi_cons, if_neg hc, ih ht]
    rfl

/-- Segments produced by splitting contain no separator. -/
theorem mem_splitOn_semi_no_semi (l seg : Str) (h : seg ∈ l.splitOn ';') :
    ';' ∉ seg := by
  induction l generalizing seg with
  | nil =>
    simp at h
    subst h
    simp
  | cons c t ih =>
    rw [splitOn_semi_cons] at h
    by_cases hc : c = ';'
    · rw [if_pos hc] at h
      rcases List.mem_cons.mp h with rfl | h
      · simp
      · exact ih seg h
    · rw [if_neg hc] at h
      obtain ⟨b, bs, hbs⟩ : ∃ b bs, t.splitOn ';' = b :: bs := by
        cases hh : t.splitOn ';' with
        | nil => exact absurd hh (splitOn_semi_ne_nil t)
        | cons b bs => exact ⟨b, bs, rfl⟩
      rw [hbs] at h
      simp only [List.modifyHead] at h
      rcases List.mem_cons.mp h with rfl | h
      · intro hmem
        rcases List.mem_cons.mp hmem with hh | hh
        · exact hc hh.symm
        · exact ih b (hbs ▸ List.mem_cons_self b bs) hh
      · exact ih seg (hbs ▸ List.mem_cons_of_mem b h)

/-- The first segment of a split is a prefix of the text. -/
theorem splitOn_semi_head_pfx (l b : Str) (bs : List Str)
    (h : l.splitOn ';' = b :: bs) : b <+: l := by
  induction l generalizing b bs with
  | nil =>
    simp at h
    simp [h.1]
  | cons c t ih =>
    rw [splitOn_semi_cons] at h
    by_cases hc : c = ';'
    · rw [if_pos hc] at h
      cases h
      exact List.nil_prefix
    · rw [if_neg hc] at h
      obtain ⟨b0, bs0, hbs⟩ : ∃ b0 bs0, t.splitOn ';' = b0 :: bs0 := by
        cases hh : t.splitOn ';' with
        | nil => exact absurd hh (splitOn_semi_ne_nil t)
        | cons x xs => exact ⟨x, xs, rfl⟩
      rw [hbs] at h
      simp only [List.modifyHead] at h
      cases h
      obtain ⟨u, hu⟩ := ih _ _ hbs
      exact ⟨u, by simp [hu]⟩

/-- Every segment of a split is an infix of the text. -/
theorem mem_splitOn_semi_infix (l seg : Str) (h : seg ∈ l.splitOn ';') :
    seg <:+: l := by
  induction l generalizing seg with
  | nil =>
    simp at h
    subst h
    exact List.infix_rfl
  | cons c t ih =>
    rw [splitOn_semi_cons] at h
    by_cases hc : c = ';'
    · rw [if_pos hc] at h
      rcases List.mem_cons.mp h with rfl | h
      · exact List.nil_infix
      · exact List.infix_cons (ih seg h)
    · rw [if_neg hc] at h
      obtain ⟨b0, bs0, hbs⟩ : ∃ b0 bs0, t.splitOn ';' = b0 :: bs0 := by
        cases hh : t.splitOn ';' with
        | nil => exact absurd hh (splitOn_semi_ne_nil t)
        | cons x xs => exact ⟨x, xs, rfl⟩
      rw [hbs] at h
      simp only [List.modifyHead] at h
      rcases List.mem_cons.mp h with rfl | h
      · obtain ⟨u, hu⟩ := splitOn_semi_head_pfx t b0 bs0 hbs
        exact List.IsPrefix.isInfix ⟨u, by simp [hu]⟩
      · exact List.infix_cons (ih seg (hbs ▸ List.mem_cons_of_mem b0 h))

/-! ## Lemmas about the string primitives -/

/-- `strip_prefix` succeeds on an explicit prefix. -/
theorem stripPfx_append (p r : Str) : stripPfx p (p ++ r) = some r := by
  rw [stripPfx, if_pos, List.drop_left]
  exact List.isPrefixOf_iff_prefix.mpr (List.prefix_append p r)

/-- `strip_prefix` fails when the prefix is absent. -/
theorem stripPfx_eq_none (p l : Str) (h : ¬ p <+: l) : stripPfx p l = none := by
  rw [stripPfx, if_neg]
  intro hh
  exact h (List.isPrefixOf_iff_prefix.mp hh)

/-- A reserved prefix `p=` matches the segment `k=v` (with `=`-free `p`
and `k`) exactly when the key is `p` itself. -/
theorem eq_key_isPrefixOf (p k v : Str) (hp : '=' ∉ p) (hk : '=' ∉ k) :
    ((p ++ ['=']).isPrefixOf (k ++ '=' :: v) = true) ↔ p = k := by
  induction p generalizing k with
  | nil =>
    cases k with
    | nil => simp [List.isPrefixOf]
    | cons a k' =>
      have ha : a ≠ '=' := fun hh => hk (hh ▸ List.mem_cons_self a k')
      simp [List.isPrefixOf, Ne.symm ha]
  | cons b p' ih =>
    have hb : b ≠ '=' := fun hh => hp (hh ▸ List.mem_cons_self b p')
    have hp' : '=' ∉ p' := fun hh => hp (List.mem_cons_of_mem b hh)
    cases k with
    | nil => simp [List.isPrefixOf, hb]
    | cons a k' =>
      have hk' : '=' ∉ k' := fun hh => hk (List.mem_cons_of_mem a hh)
      by_cases hba : b = a
      · subst hba
        simp [List.isPrefixOf, ih k' hp' hk']
      · simp [List.isPrefixOf, hba]

/-- `split_once` at the first `=` of an explicit `k=v` segment. -/
theorem splitOnce_append (k v : Str) (hk : '=' ∉ k) :
    splitOnce '=' (k ++ '=' :: v) = some (k, v) := by
  induction k with
  | nil => simp [splitOnce]
  | cons a k' ih =>
    have ha : a ≠ '=' := fun hh => hk (hh ▸ List.mem_cons_self a k')
    have hk' : '=' ∉ k' := fun hh => hk (List.mem_cons_of_mem a hh)
    simp [splitOnce, ha, ih hk']

/-- `split_once` fails exactly on `=`-free text. -/
theorem splitOnce_eq_none (l : Str) (h : '=' ∉ l) : splitOnce '=' l = none := by
  induction l with
  | nil => rfl
  | cons a t ih =>
    have ha : a ≠ '=' := fun hh => h (hh ▸ List.mem_cons_self a t)
    have ht : '=' ∉ t := fun hh => h (List.mem_cons_of_mem a hh)
    simp [splitOnce, ha, ih ht]

/-- Characterization of a successful `split_once`. -/
theorem splitOnce_some (l k v : Str) (h : splitOnce '=' l = some (k, v)) :
    l = k ++ '=' :: v ∧ '=' ∉ k := by
  induction l generalizing k v with
  | nil => simp [splitOnce] at h
  | cons a t ih =>
    by_cases ha : a = '='
    · subst ha
      simp [splitOnce] at h
      obtain ⟨rfl, rfl⟩ := h
      simp
    · rw [splitOnce, if_neg ha, Option.map_eq_some'] at h
      obtain ⟨⟨k', v'⟩, hkv, hfv⟩ := h
      cases hfv
      obtain ⟨rfl, hk'⟩ := ih k' v' hkv
      refine ⟨rfl, ?_⟩
      intro hmem
      rcases List.mem_cons.mp hmem with hh | hh
      · exact ha hh.symm
      · exact hk' hh

/-- Inserting a fresh key appends the pair. -/
theorem adInsert_fresh (ad : List (Str × Str)) (k v : Str)
    (h : k ∉ ad.map Prod.fst) : adInsert ad k v = ad ++ [(k, v)] := by
  induction ad with
  | nil => rfl
  | cons kv rest ih =>
    obtain ⟨k0, v0⟩ := kv
    rw [List.map_cons, List.mem_cons] at h
    push_neg at h
    rw [adInsert, if_neg (fun hh => h.1 hh.symm), ih h.2]
    rfl

/-- Members of an insertion come from the original list or are the new
pair. -/
theorem mem_adInsert (ad : List (Str × Str)) (k v : Str) (x : Str × Str)
    (h : x ∈ adInsert ad k v) : x ∈ ad ∨ x = (k, v) := by
  induction ad with
  | nil =>
    simp [adInsert] at h
    simp [h]
  | cons kv rest ih =>
    obtain ⟨k0, v0⟩ := kv
    rw [adInsert] at h
    by_cases hk : k0 = k
    · rw [if_pos hk] at h
      rcases List.mem_cons.mp h with rfl | h
      · subst hk; right; rfl
      · left; exact List.mem_cons_of_mem _ h
    · rw [if_neg hk] at h
      rcases List.mem_cons.mp h with rfl | h
      · left; exact List.mem_cons_self _ _
      · rcases ih h with h | h
        · left; exact List.mem_cons_of_mem _ h
        · right; exact h

/-- The key list of an insertion: unchanged on replacement, extended on
a fresh key. -/
theorem adInsert_keys (ad : List (Str × Str)) (k v : Str) :
    (adInsert ad k v).map Prod.fst =
      if k ∈ ad.map Prod.fst then ad.map Prod.fst
      else ad.map Prod.fst ++ [k] := by
  induction ad with
  | nil => simp [adInsert]
  | cons kv rest ih =>
    obtain ⟨k0, v0⟩ := kv
    by_cases hk : k0 = k
    · subst hk
      simp [adInsert]
    · rw [adInsert, if_neg hk]
      by_cases hmem : k ∈ rest.map Prod.fst
      · simp only [List.map_cons, ih, if_pos hmem]
        rw [if_pos (List.mem_cons_of_mem _ hmem)]
      · simp only [List.map_cons, ih, if_neg hmem]
        rw [if_neg, List.cons_append]
        intro hh
        rcases List.mem_cons.mp hh with hh | hh
        · exact hk hh.symm
        · exact hmem hh

/-! ## Parse invariants -/

/-- Running the parser preserves the header invariant; any processed
`Root=` segment leaves the trace id rendered and separator free. -/
theorem runParse_ok_inv (s : Str) (l : List Str) :
    ∀ h0 h : Header, (∀ seg ∈ l, ';' ∉ seg) → HeaderOk h0 →
      runParse s h0 l = .ok h →
      HeaderOk h ∧ (TraceRendered h0 → TraceRendered h) ∧
        ((∃ seg ∈ l, (str "Root=").isPrefixOf seg) → TraceRendered h) := by
  induction l with
  | nil =>
    intro h0 h _ hinv hrun
    rw [runParse] at hrun
    injection hrun with hrun
    subst hrun
    refine ⟨hinv, id, ?_⟩
    rintro ⟨seg, hs, -⟩
    cases hs
  | cons line rest ih =>
    intro h0 h hl hinv hrun
    have hline : ';' ∉ line := hl line (List.mem_cons_self _ _)
    have hrest : ∀ seg ∈ rest, ';' ∉ seg :=
      fun seg hs => hl seg (List.mem_cons_of_mem _ hs)
    obtain ⟨hT, hP, hAD⟩ := hinv
    rw [runParse] at hrun
    split at hrun
    · -- Root= branch
      rename_i tid hR
      have htid : ';' ∉ tid := by
        rw [stripPfx] at hR
        split at hR
        · injection hR with hR
          subst hR
          exact fun hm => hline (List.drop_subset _ _ hm)
        · cases hR
      obtain ⟨inv', htr', -⟩ :=
        ih { h0 with trace_id := .Rendered tid } h hrest
          ⟨fun r hr => by injection hr with hr; exact hr ▸ htid, hP, hAD⟩ hrun
      have hnow : TraceRendered h := htr' ⟨tid, rfl, htid⟩
      exact ⟨inv', fun _ => hnow, fun _ => hnow⟩
    · -- no Root=; split on Parent=
      rename_i hR
      split at hrun
      · rename_i pid hPa
        have hpid : ';' ∉ pid := by
          rw [stripPfx] at hPa
          split at hPa
          · injection hPa with hPa
            subst hPa
            exact fun hm => hline (List.drop_subset _ _ hm)
          · cases hPa
        obtain ⟨inv', htr', hroot'⟩ :=
          ih { h0 with parent_id := some (.Rendered pid) } h hrest
            ⟨hT, fun p hp => by
              injection hp with hp
              exact ⟨pid, hp.symm, hpid⟩, hAD⟩ hrun
        refine ⟨inv', htr', ?_⟩
        rintro ⟨seg, hs, hpre⟩
        rcases List.mem_cons.mp hs with rfl | hs
        · exact absurd (by rw [stripPfx, if_pos hpre] at hR; cases hR) (fun h => h)
        · exact hroot' ⟨seg, hs, hpre⟩
      · rename_i hPa
        split at hrun
        · -- Sampled= branch
          rename_i hSam
          obtain ⟨inv', htr', hroot'⟩ :=
            ih { h0 with sampling_decision := .fromLine line } h hrest
              ⟨hT, hP, hAD⟩ hrun
          refine ⟨inv', htr', ?_⟩
          rintro ⟨seg, hs, hpre⟩
          rcases List.mem_cons.mp hs with rfl | hs
          · exact absurd (by rw [stripPfx, if_pos hpre] at hR; cases hR) (fun h => h)
          · exact hroot' ⟨seg, hs, hpre⟩
        · rename_i hSam
          split at hrun
          · -- Self= branch
            obtain ⟨inv', htr', hroot'⟩ := ih h0 h hrest ⟨hT, hP, hAD⟩ hrun
            refine ⟨inv', htr', ?_⟩
            rintro ⟨seg, hs, hpre⟩
            rcases List.mem_cons.mp hs with rfl | hs
            · exact absurd (by rw [stripPfx, if_pos hpre] at hR; cases hR) (fun h => h)
            · exact hroot' ⟨seg, hs, hpre⟩
          · rename_i hSelf
            split at hrun
            · -- key=value branch
              rename_i k v hsp
              obtain ⟨hlineq, hkeq⟩ := splitOnce_some line k v hsp
              subst hlineq
              have hksemi : ';' ∉ k :=
                fun hm => hline (List.mem_append.mpr (Or.inl hm))
              have hvsemi : ';' ∉ v := fun hm =>
                hline (List.mem_append.mpr (Or.inr (List.mem_cons_of_mem _ hm)))
              have hkRoot : k ≠ str "Root" := by
                intro hkR
                have hpre : (str "Root=").isPrefixOf (k ++ '=' :: v) = true := by
                  rw [show str "Root=" = str "Root" ++ ['='] from rfl]
                  exact (eq_key_isPrefixOf (str "Root") k v (by decide) hkeq).mpr hkR.symm
                rw [stripPfx, if_pos hpre] at hR
                cases hR
              have hkParent : k ≠ str "Parent" := by
                intro hkR
                have hpre : (str "Parent=").isPrefixOf (k ++ '=' :: v) = true := by
                  rw [show str "Parent=" = str "Parent" ++ ['='] from rfl]
                  exact (eq_key_isPrefixOf (str "Parent") k v (by decide) hkeq).mpr hkR.symm
                rw [stripPfx, if_pos hpre] at hPa
                cases hPa
              have hkSampled : k ≠ str "Sampled" := by
                intro hkR
                refine hSam ?_
                rw [show str "Sampled=" = str "Sampled" ++ ['='] from rfl]
                exact (eq_key_isPrefixOf (str "Sampled") k v (by decide) hkeq).mpr hkR.symm
              have hkSelf : k ≠ str "Self" := by
                intro hkR
                refine hSelf ?_
                rw [show str "Self=" = str "Self" ++ ['='] from rfl]
                exact (eq_key_isPrefixOf (str "Self") k v (by decide) hkeq).mpr hkR.symm
              have hADnew : ADOk (adInsert h0.additional_data k v) := by
                obtain ⟨hnd, hmem⟩ := hAD
                constructor
                · rw [adInsert_keys]
                  split
                  · exact hnd
                  · rename_i hkfresh
                    exact hnd.append (List.nodup_singleton k)
                      (fun a ha hb => by
                        rw [List.mem_singleton] at hb
                        exact hkfresh (hb ▸ ha))
                · intro kv hkv
                  rcases mem_adInsert _ _ _ _ hkv with hkv | rfl
                  · exact hmem kv hkv
                  · exact ⟨⟨hkeq, hksemi, hkRoot, hkParent, hkSampled, hkSelf⟩, hvsemi⟩
              obtain ⟨inv', htr', hroot'⟩ :=
                ih { h0 with additional_data := adInsert h0.additional_data k v }
                  h hrest ⟨hT, hP, hADnew⟩ hrun
              refine ⟨inv', htr', ?_⟩
              rintro ⟨seg, hs, hpre⟩
              rcases List.mem_cons.mp hs with rfl | hs
              · rw [stripPfx, if_pos hpre] at hR
                cases hR
              · exact hroot' ⟨seg, hs, hpre⟩
            · cases hrun

/-! ## Serialization as segment joining -/

/-- The sequential `write!` outputs of `Display for Header` are exactly
the `;`-join of `fmtSegs`. -/
theorem fmt_eq_joinSemi (h : Header) : h.fmt = joinSemi (fmtSegs h) := by
  obtain ⟨tid, pid, sd, ad⟩ := h
  cases pid <;> by_cases hsd : sd = .Unknown <;>
    simp [Header.fmt, fmtSegs, joinSemi, hsd, List.map_append,
      Function.comp_def,
      (show str ";Parent=" = ';' :: str "Parent=" from rfl)]

/-- Under the header invariant, no emitted segment contains `;`. -/
theorem fmtSegs_no_semi (h : Header) (hok : HeaderOk h) (htr : TraceRendered h) :
    ∀ seg ∈ fmtSegs h, ';' ∉ seg := by
  obtain ⟨tid, pid, sd, ad⟩ := h
  obtain ⟨hT, hP, hnd, hADm⟩ := hok
  obtain ⟨r, htid, hrs⟩ := htr
  simp only at htid
  subst htid
  intro seg hs
  rw [fmtSegs] at hs
  rcases List.mem_cons.mp hs with rfl | hs
  · intro hm
    rcases List.mem_append.mp hm with hm | hm
    · exact absurd hm (by decide)
    · exact hrs hm
  · rcases List.mem_append.mp hs with hs | hs
    · rcases List.mem_append.mp hs with hs | hs
      · -- parent segment
        cases pid with
        | none => simp at hs
        | some p =>
          obtain ⟨ps, hpeq, hps⟩ := hP p rfl
          subst hpeq
          simp only [List.mem_singleton] at hs
          subst hs
          intro hm
          rcases List.mem_append.mp hm with hm | hm
          · exact absurd hm (by decide)
          · exact hps hm
      · -- sampling segment
        cases sd <;> simp at hs <;> subst hs <;> decide
    · -- additional data segment
      obtain ⟨⟨k, v⟩, hkv, rfl⟩ := List.mem_map.mp hs
      obtain ⟨⟨-, hksemi, -⟩, hvsemi⟩ := hADm _ hkv
      intro hm
      rcases List.mem_append.mp hm with hm | hm
      · exact hksemi hm
      · rcases List.mem_cons.mp hm with hm | hm
        · cases hm
        · exact hvsemi hm

/-- Splitting on `;` recovers the joined segments when each is
separator free. -/
theorem splitOn_joinSemi (segs : List Str) (hne : segs ≠ [])
    (hs : ∀ seg ∈ segs, ';' ∉ seg) :
    (joinSemi segs).splitOn ';' = segs := by
  induction segs with
  | nil => exact absurd rfl hne
  | cons a rest ih =>
    cases rest with
    | nil =>
      rw [joinSemi]
      simp only [List.map_nil, List.flatten_nil, List.append_nil]
      exact splitOn_semi_single a (hs a (List.mem_cons_self _ _))
    | cons b rest' =>
      have hstep : joinSemi (a :: b :: rest') = a ++ ';' :: joinSemi (b :: rest') := by
        simp [joinSemi]
      rw [hstep, splitOn_semi_append _ _ (hs a (List.mem_cons_self _ _)),
        ih (by simp) (fun seg hseg => hs seg (List.mem_cons_of_mem _ hseg))]

/-- Splitting the serialized header recovers exactly its segments. -/
theorem fmt_splitOn (h : Header) (hok : HeaderOk h) (htr : TraceRendered h) :
    (h.fmt).splitOn ';' = fmtSegs h := by
  rw [fmt_eq_joinSemi]
  exact splitOn_joinSemi _ (by rw [fmtSegs]; exact List.cons_ne_nil _ _)
    (fmtSegs_no_semi h hok htr)

/-- Re-parsing a sequence of well-formed `key=value` segments appends
exactly the original pairs to the accumulated additional data. -/
theorem runParse_pairs (s' : Str) (tid : TraceId) (pid : Option SegmentId)
    (sd : SamplingDecision) (pairs : List (Str × Str)) :
    ∀ acc : List (Str × Str),
      ((acc ++ pairs).map Prod.fst).Nodup →
      (∀ kv ∈ pairs, GoodKey kv.1) →
      runParse s' ⟨tid, pid, sd, acc⟩
        (pairs.map (fun kv => kv.1 ++ '=' :: kv.2)) =
        .ok ⟨tid, pid, sd, acc ++ pairs⟩ := by
  induction pairs with
  | nil =>
    intro acc _ _
    simp [runParse]
  | cons kv rest ih =>
    obtain ⟨k, v⟩ := kv
    intro acc hnd hg
    obtain ⟨hkeq, hksemi, hkRoot, hkParent, hkSampled, hkSelf⟩ :=
      hg (k, v) (List.mem_cons_self _ _)
    have hg' : ∀ kv ∈ rest, GoodKey kv.1 :=
      fun kv hkv => hg kv (List.mem_cons_of_mem _ hkv)
    have hR : stripPfx (str "Root=") (k ++ '=' :: v) = none := by
      refine stripPfx_eq_none _ _ ?_
      intro hpre
      have hb := List.isPrefixOf_iff_prefix.mpr hpre
      rw [show str "Root=" = str "Root" ++ ['='] from rfl] at hb
      exact hkRoot ((eq_key_isPrefixOf _ _ _ (by decide) hkeq).mp hb).symm
    have hPa : stripPfx (str "Parent=") (k ++ '=' :: v) = none := by
      refine stripPfx_eq_none _ _ ?_
      intro hpre
      have hb := List.isPrefixOf_iff_prefix.mpr hpre
      rw [show str "Parent=" = str "Parent" ++ ['='] from rfl] at hb
      exact hkParent ((eq_key_isPrefixOf _ _ _ (by decide) hkeq).mp hb).symm
    have hSam : ¬ ((str "Sampled=").isPrefixOf (k ++ '=' :: v) = true) := by
      intro hb
      rw [show str "Sampled=" = str "Sampled" ++ ['='] from rfl] at hb
      exact hkSampled ((eq_key_isPrefixOf _ _ _ (by decide) hkeq).mp hb).symm
    have hSelf : ¬ ((str "Self=").isPrefixOf (k ++ '=' :: v) = true) := by
      intro hb
      rw [show str "Self=" = str "Self" ++ ['='] from rfl] at hb
      exact hkSelf ((eq_key_isPrefixOf _ _ _ (by decide) hkeq).mp hb).symm
    have hfresh : k ∉ acc.map Prod.fst := by
      rw [List.map_append] at hnd
      intro hk
      exact (List.nodup_append.mp hnd).2.2 hk (by simp)
    have hnd' : (((acc ++ [(k, v)]) ++ rest).map Prod.fst).Nodup := by
      rw [List.append_assoc]
      exact hnd
    have hstep := ih (acc ++ [(k, v)]) hnd' hg'
    rw [List.append_assoc] at hstep
    simp only [List.map_cons, runParse, hR, hPa, if_neg hSam, if_neg hSelf,
      splitOnce_append k v hkeq, adInsert_fresh acc k v hfresh]
    exact hstep

/-- A head-character mismatch refutes `isPrefixOf`. -/
theorem isPrefixOf_head_ne (a b : Char) (as bs : Str) (h : (a == b) = false) :
    (a :: as).isPrefixOf (b :: bs) = false := by
  rw [List.isPrefixOf_cons₂, h, Bool.false_and]

/-- `strip_prefix` returns nothing when the boolean prefix test fails. -/
theorem stripPfx_false (p l : Str) (h : p.isPrefixOf l = false) :
    stripPfx p l = none := by
  rw [stripPfx, if_neg]
  simp [h]

/-- Parsing one `Root=` segment sets the trace id to the remainder. -/
theorem runParse_root_step (s' : Str) (h : Header) (r : Str) (rest : List Str) :
    runParse s' h ((str "Root=" ++ r) :: rest) =
      runParse s' { h with trace_id := .Rendered r } rest := by
  simp only [runParse, stripPfx_append]

/-- Parsing one `Parent=` segment sets the parent id to the remainder. -/
theorem runParse_parent_step (s' : Str) (h : Header) (ps : Str)
    (rest : List Str) :
    runParse s' h ((str "Parent=" ++ ps) :: rest) =
      runParse s' { h with parent_id := some (.Rendered ps) } rest := by
  have h1 : stripPfx (str "Root=") (str "Parent=" ++ ps) = none := by
    refine stripPfx_false _ _ ?_
    rw [show str "Root=" = 'R' :: str "oot=" from rfl,
      show str "Parent=" ++ ps = 'P' :: (str "arent=" ++ ps) from rfl]
    exact isPrefixOf_head_ne _ _ _ _ rfl
  simp only [runParse, h1, stripPfx_append]

/-- Parsing the `Sampled=1` token. -/
theorem runParse_sampled1_step (s' : Str) (h : Header) (rest : List Str) :
    runParse s' h (str "Sampled=1" :: rest) =
      runParse s' { h with sampling_decision := .Sampled } rest := by
  simp only [runParse,
    show stripPfx (str "Root=") (str "Sampled=1") = none from by decide,
    show stripPfx (str "Parent=") (str "Sampled=1") = none from by decide,
    show (str "Sampled=").isPrefixOf (str "Sampled=1") = true from by decide,
    show SamplingDecision.fromLine (str "Sampled=1") = .Sampled from by decide,
    if_true, eq_self_iff_true]

/-- Parsing the `Sampled=0` token. -/
theorem runParse_sampled0_step (s' : Str) (h : Header) (rest : List Str) :
    runParse s' h (str "Sampled=0" :: rest) =
      runParse s' { h with sampling_decision := .NotSampled } rest := by
  simp only [runParse,
    show stripPfx (str "Root=") (str "Sampled=0") = none from by decide,
    show stripPfx (str "Parent=") (str "Sampled=0") = none from by decide,
    show (str "Sampled=").isPrefixOf (str "Sampled=0") = true from by decide,
    show SamplingDecision.fromLine (str "Sampled=0") = .NotSampled from by decide,
    if_true, eq_self_iff_true]

/-- Parsing the `Sampled=?` token. -/
theorem runParse_sampledq_step (s' : Str) (h : Header) (rest : List Str) :
    runParse s' h (str "Sampled=?" :: rest) =
      runParse s' { h with sampling_decision := .Requested } rest := by
  simp only [runParse,
    show stripPfx (str "Root=") (str "Sampled=?") = none from by decide,
    show stripPfx (str "Parent=") (str "Sampled=?") = none from by decide,
    show (str "Sampled=").isPrefixOf (str "Sampled=?") = true from by decide,
    show SamplingDecision.fromLine (str "Sampled=?") = .Requested from by decide,
    if_true, eq_self_iff_true]

/-- Re-parsing the emitted segments of an invariant-satisfying header
reconstructs the header exactly. -/
theorem runParse_fmtSegs (s' : Str) (h : Header) (hok : HeaderOk h)
    (htr : TraceRendered h) :
    runParse s' default (fmtSegs h) = .ok h := by
  obtain ⟨tid, pid, sd, ad⟩ := h
  obtain ⟨hT, hP, hnd, hADm⟩ := hok
  obtain ⟨r, htid, hrs⟩ := htr
  simp only at htid
  subst htid
  have hg : ∀ kv ∈ ad, GoodKey kv.1 := fun kv hkv => (hADm kv hkv).1
  have hzero := (show (default : Header) = ⟨.Unset, none, .Unknown, []⟩ from rfl)
  cases pid with
  | none =>
    cases sd
    · rw [show fmtSegs ⟨.Rendered r, none, .Sampled, ad⟩ =
          (str "Root=" ++ r) :: str "Sampled=1"
            :: ad.map (fun kv => kv.1 ++ '=' :: kv.2) from rfl,
        hzero, runParse_root_step, runParse_sampled1_step]
      simpa using runParse_pairs s' (.Rendered r) none .Sampled ad []
        (by simpa using hnd) hg
    · rw [show fmtSegs ⟨.Rendered r, none, .NotSampled, ad⟩ =
          (str "Root=" ++ r) :: str "Sampled=0"
            :: ad.map (fun kv => kv.1 ++ '=' :: kv.2) from rfl,
        hzero, runParse_root_step, runParse_sampled0_step]
      simpa using runParse_pairs s' (.Rendered r) none .NotSampled ad []
        (by simpa using hnd) hg
    · rw [show fmtSegs ⟨.Rendered r, none, .Requested, ad⟩ =
          (str "Root=" ++ r) :: str "Sampled=?"
            :: ad.map (fun kv => kv.1 ++ '=' :: kv.2) from rfl,
        hzero, runParse_root_step, runParse_sampledq_step]
      simpa using runParse_pairs s' (.Rendered r) none .Requested ad []
        (by simpa using hnd) hg
    · rw [show fmtSegs ⟨.Rendered r, none, .Unknown, ad⟩ =
          (str "Root=" ++ r)
            :: ad.map (fun kv => kv.1 ++ '=' :: kv.2) from rfl,
        hzero, runParse_root_step]
      simpa using runParse_pairs s' (.Rendered r) none .Unknown ad []
        (by simpa using hnd) hg
  | some p =>
    obtain ⟨ps, hpeq, hps⟩ := hP p rfl
    subst hpeq
    cases sd
    · rw [show fmtSegs ⟨.Rendered r, some (.Rendered ps), .Sampled, ad⟩ =
          (str "Root=" ++ r) :: (str "Parent=" ++ ps) :: str "Sampled=1"
            :: ad.map (fun kv => kv.1 ++ '=' :: kv.2) from rfl,
        hzero, runParse_root_step, runParse_parent_step, runParse_sampled1_step]
      simpa using runParse_pairs s' (.Rendered r) (some (.Rendered ps))
        .Sampled ad [] (by simpa using hnd) hg
    · rw [show fmtSegs ⟨.Rendered r, some (.Rendered ps), .NotSampled, ad⟩ =
          (str "Root=" ++ r) :: (str "Parent=" ++ ps) :: str "Sampled=0"
            :: ad.map (fun kv => kv.1 ++ '=' :: kv.2) from rfl,
        hzero, runParse_root_step, runParse_parent_step, runParse_sampled0_step]
      simpa using runParse_pairs s' (.Rendered r) (some (.Rendered ps))
        .NotSampled ad [] (by simpa using hnd) hg
    · rw [show fmtSegs ⟨.Rendered r, some (.Rendered ps), .Requested, ad⟩ =
          (str "Root=" ++ r) :: (str "Parent=" ++ ps) :: str "Sampled=?"
            :: ad.map (fun kv => kv.1 ++ '=' :: kv.2) from rfl,
        hzero, runParse_root_step, runParse_parent_step, runParse_sampledq_step]
      simpa using runParse_pairs s' (.Rendered r) (some (.Rendered ps))
        .Requested ad [] (by simpa using hnd) hg
    · rw [show fmtSegs ⟨.Rendered r, some (.Rendered ps), .Unknown, ad⟩ =
          (str "Root=" ++ r) :: (str "Parent=" ++ ps)
            :: ad.map (fun kv => kv.1 ++ '=' :: kv.2) from rfl,
        hzero, runParse_root_step, runParse_parent_step]
      simpa using runParse_pairs s' (.Rendered r) (some (.Rendered ps))
        .Unknown ad [] (by simpa using hnd) hg

/-- C1: for every valid header text (parse succeeds and a `Root=` segment
is present, as the grammar requires), parse-format-parse returns a header
equal to the first parse. -/
theorem header_parse_fmt_roundtrip (s : Str) (h : Header)
    (hparse : Header.fromStr s = .ok h)
    (hroot : ∃ seg ∈ s.splitOn ';', (str "Root=").isPrefixOf seg) :
    Header.fromStr h.fmt = .ok h := by
  have hsegs : ∀ seg ∈ s.splitOn ';', ';' ∉ seg :=
    fun seg hs => mem_splitOn_semi_no_semi s seg hs
  have hdefok : HeaderOk (default : Header) := by
    refine ⟨fun r hr => ?_, fun p hp => ?_, ?_, fun kv hkv => ?_⟩
    · cases hr
    · cases hp
    · exact List.nodup_nil
    · exact absurd hkv (List.not_mem_nil kv)
  obtain ⟨hok, -, htrf⟩ :=
    runParse_ok_inv s (s.splitOn ';') default h hsegs hdefok hparse
  have htr := htrf hroot
  show runParse h.fmt default ((h.fmt).splitOn ';') = .ok h
  rw [fmt_splitOn h hok htr]
  exact runParse_fmtSegs h.fmt h hok htr

/-- C1 witness: the round trip evaluated on a concrete header text with
parent, sampling decision and additional data. -/
theorem header_parse_fmt_roundtrip_witness :
    Header.fromStr (str "Root=r;Parent=p;Sampled=1;k=v") =
      .ok ⟨.Rendered (str "r"), some (.Rendered (str "p")), .Sampled,
        [(str "k", str "v")]⟩ ∧
    (∃ seg ∈ (str "Root=r;Parent=p;Sampled=1;k=v").splitOn ';',
      (str "Root=").isPrefixOf seg) ∧
    Header.fromStr
      (Header.fmt ⟨.Rendered (str "r"), some (.Rendered (str "p")), .Sampled,
        [(str "k", str "v")]⟩) =
      .ok ⟨.Rendered (str "r"), some (.Rendered (str "p")), .Sampled,
        [(str "k", str "v")]⟩ :=
  ⟨rfl, by decide,
    header_parse_fmt_roundtrip (str "Root=r;Parent=p;Sampled=1;k=v")
      ⟨.Rendered (str "r"), some (.Rendered (str "p")), .Sampled,
        [(str "k", str "v")]⟩ rfl (by decide)⟩

/-- C5 counterexample: parse succeeds on `"a=b"` (a single additional
`key=value` segment, no `Root=`), yet the resulting trace id is the unset
marker, not a rendered token. -/
theorem parse_ok_without_root_trace_unset :
    Header.fromStr (str "a=b") =
      .ok ⟨.Unset, none, .Unknown, [(str "a", str "b")]⟩ ∧
    (∀ r, (TraceId.Unset : TraceId) ≠ .Rendered r) :=
  ⟨rfl, fun r h => by cases h⟩

/-- C5 (amended): for every input text on which parse succeeds and which
contains a `Root=` segment, the resulting trace id is a rendered
token. -/
theorem parse_trace_id_present (s : Str) (h : Header)
    (hparse : Header.fromStr s = .ok h)
    (hroot : ∃ seg ∈ s.splitOn ';', (str "Root=").isPrefixOf seg) :
    ∃ r, h.trace_id = .Rendered r := by
  have hsegs : ∀ seg ∈ s.splitOn ';', ';' ∉ seg :=
    fun seg hs => mem_splitOn_semi_no_semi s seg hs
  have hdefok : HeaderOk (default : Header) := by
    refine ⟨fun r hr => ?_, fun p hp => ?_, ?_, fun kv hkv => ?_⟩
    · cases hr
    · cases hp
    · exact List.nodup_nil
    · exact absurd hkv (List.not_mem_nil kv)
  obtain ⟨-, -, htrf⟩ :=
    runParse_ok_inv s (s.splitOn ';') default h hsegs hdefok hparse
  obtain ⟨r, hr, -⟩ := htrf hroot
  exact ⟨r, hr⟩

/-- C5 witness: the amended presence property evaluated on
`"Root=x"`. -/
theorem parse_trace_id_present_witness :
    Header.fromStr (str "Root=x") =
      .ok ⟨.Rendered (str "x"), none, .Unknown, []⟩ ∧
    ∃ r, (Header.mk (.Rendered (str "x")) none .Unknown []).trace_id =
      .Rendered r :=
  ⟨rfl,
    parse_trace_id_present (str "Root=x")
      ⟨.Rendered (str "x"), none, .Unknown, []⟩ rfl (by decide)⟩

/-- The parser fails with the fixed message as soon as some segment
matches none of the reserved prefixes and contains no `=`. -/
theorem runParse_error_of_bad (s : Str) (l : List Str) :
    ∀ h0 : Header,
      (∃ seg ∈ l, ¬((str "Root=").isPrefixOf seg = true) ∧
        ¬((str "Parent=").isPrefixOf seg = true) ∧
        ¬((str "Sampled=").isPrefixOf seg = true) ∧
        ¬((str "Self=").isPrefixOf seg = true) ∧ '=' ∉ seg) →
      runParse s h0 l = .error (errMsg s) := by
  induction l with
  | nil =>
    rintro h0 ⟨seg, hs, -⟩
    cases hs
  | cons line rest ih =>
    rintro h0 ⟨seg, hs, hbad⟩
    rcases hR : stripPfx (str "Root=") line with _ | tid
    · rcases hPa : stripPfx (str "Parent=") line with _ | pid
      · by_cases hSam : (str "Sampled=").isPrefixOf line = true
        · have hseg : seg ∈ rest := by
            rcases List.mem_cons.mp hs with rfl | hs'
            · exact absurd hSam hbad.2.2.1
            · exact hs'
          simp only [runParse, hR, hPa, if_pos hSam]
          exact ih _ ⟨seg, hseg, hbad⟩
        · by_cases hSelf : (str "Self=").isPrefixOf line = true
          · have hseg : seg ∈ rest := by
              rcases List.mem_cons.mp hs with rfl | hs'
              · exact absurd hSelf hbad.2.2.2.1
              · exact hs'
            simp only [runParse, hR, hPa, if_neg hSam, if_pos hSelf]
            exact ih _ ⟨seg, hseg, hbad⟩
          · rcases hsp : splitOnce '=' line with _ | ⟨k, v⟩
            · simp only [runParse, hR, hPa, if_neg hSam, if_neg hSelf, hsp]
            · have hseg : seg ∈ rest := by
                rcases List.mem_cons.mp hs with rfl | hs'
                · obtain ⟨hlineq, -⟩ := splitOnce_some seg k v hsp
                  exact absurd
                    (hlineq ▸ List.mem_append.mpr
                      (Or.inr (List.mem_cons_self '=' v)))
                    hbad.2.2.2.2
                · exact hs'
              simp only [runParse, hR, hPa, if_neg hSam, if_neg hSelf, hsp]
              exact ih _ ⟨seg, hseg, hbad⟩
      · have hseg : seg ∈ rest := by
          rcases List.mem_cons.mp hs with rfl | hs'
          · exfalso
            rw [stripPfx] at hPa
            split at hPa
            · next hcond => exact hbad.2.1 hcond
            · cases hPa
          · exact hs'
        simp only [runParse, hR, hPa]
        exact ih _ ⟨seg, hseg, hbad⟩
    · have hseg : seg ∈ rest := by
        rcases List.mem_cons.mp hs with rfl | hs'
        · exfalso
          rw [stripPfx] at hR
          split at hR
          · next hcond => exact hbad.1 hcond
          · cases hR
        · exact hs'
      simp only [runParse, hR]
      exact ih _ ⟨seg, hseg, hbad⟩

/-- C6: an input containing a `;`-separated segment that matches none of
the `Root=`/`Parent=`/`Sampled=`/`Self=` forms and contains no `=` makes
parse fail, and the error message names the offending fragment (the
fragment is contained in the message, which quotes the whole input). -/
theorem parse_error_names_fragment (s seg : Str)
    (hmem : seg ∈ s.splitOn ';')
    (hR : ¬((str "Root=").isPrefixOf seg = true))
    (hP : ¬((str "Parent=").isPrefixOf seg = true))
    (hSam : ¬((str "Sampled=").isPrefixOf seg = true))
    (hSelf : ¬((str "Self=").isPrefixOf seg = true))
    (hEq : '=' ∉ seg) :
    Header.fromStr s = .error (errMsg s) ∧ seg <:+: errMsg s := by
  constructor
  · exact runParse_error_of_bad s _ default ⟨seg, hmem, hR, hP, hSam, hSelf, hEq⟩
  · have h1 : seg <:+: s := mem_splitOn_semi_infix s seg hmem
    refine h1.trans ?_
    exact ⟨str "invalid key=value: no `=` found in `", str "`", by
      simp [errMsg]⟩

/-- C6 witness: the failure evaluated on `"Root=r;bad"`, whose second
segment lacks `=`. -/
theorem parse_error_names_fragment_witness :
    str "bad" ∈ (str "Root=r;bad").splitOn ';' ∧
    Header.fromStr (str "Root=r;bad") = .error (errMsg (str "Root=r;bad")) ∧
    str "bad" <:+: errMsg (str "Root=r;bad") :=
  ⟨by decide,
    (parse_error_names_fragment (str "Root=r;bad") (str "bad") (by decide)
      (by decide) (by decide) (by decide) (by decide) (by decide)).1,
    (parse_error_names_fragment (str "Root=r;bad") (str "bad") (by decide)
      (by decide) (by decide) (by decide) (by decide) (by decide)).2⟩

/-- C7: serialization emits `Root=<trace_id>` first, then `;Parent=<id>`
when the parent is present, then the sampling token when the decision is
not `Unknown`, then each additional pair; in particular the header with
rendered trace id `R`, parent `P` and a positive sampling decision
formats exactly as `"Root=R;Parent=P;Sampled=1"`. -/
theorem header_fmt_ordering :
    (∀ (tid : Str) (pid : Option SegmentId) (sd : SamplingDecision)
        (ad : List (Str × Str)),
      Header.fmt ⟨.Rendered tid, pid, sd, ad⟩ =
        str "Root=" ++ tid
          ++ (match pid with
              | some parent => str ";Parent=" ++ parent.render
              | none => [])
          ++ (if sd = .Unknown then [] else ';' :: sd.render)
          ++ (ad.map (fun kv => ';' :: (kv.1 ++ '=' :: kv.2))).flatten) ∧
    Header.fmt ⟨.Rendered (str "R"), some (.Rendered (str "P")), .Sampled, []⟩
      = str "Root=R;Parent=P;Sampled=1" :=
  ⟨fun tid pid sd ad => rfl, by decide⟩
